import Mathlib

/-!
# shell2http: executing shell commands through a small HTTP server

A shallow embedding of `shell2http.go`.  Go strings are modelled by Lean
strings (sequences of Unicode code points), Go slices by lists, Go maps by the
list of their entries in the order the `range` loop visits them, and a Go
run-time panic by `none` (or the `panic` outcome).  The Go standard library
functions the program calls are modelled on the fragment the program uses.
-/

namespace Shell2Http

/-! ## Go standard library: `strings`, `fmt`, `html` -/

/-- The loop of Go `genSplit` for a one-character separator: `cuts` is the
number of separators still to be consumed (`n - 1` in the Go code); each
iteration looks for the next separator (`Index`), emits the text before it and
continues after it; the remainder is the last piece. -/
def genSplit (sep : Char) : Nat → List Char → List (List Char)
  | 0, s => [s]
  | cuts + 1, s =>
    match s.dropWhile (fun c => c != sep) with
    | [] => [s]
    | _ :: rest => s.takeWhile (fun c => c != sep) :: genSplit sep cuts rest

/-- Go `strings.Split(s, sep)` for a one-character separator: `n` is
`Count(s, sep) + 1`, so every separator is consumed. -/
def Split (s : String) (sep : Char) : List String :=
  (genSplit sep (s.data.count sep) s.data).map String.mk

/-- Go `strings.SplitN(s, sep, n)` for a one-character separator and `n ≥ 0`:
at most `n` pieces, the last one being the unsplit remainder. -/
def SplitN (s : String) (sep : Char) (n : Nat) : List String :=
  if n = 0 then []
  else (genSplit sep (min n (s.data.length + 1) - 1) s.data).map String.mk

/-- The loop of Go `strings.Replace` for a one-character `old`: `n` occurrences
remain to be replaced; each iteration copies the text before the next
occurrence, writes `new` and continues after the occurrence. -/
def replaceLoop (old : Char) (new : List Char) : Nat → List Char → List Char
  | 0, s => s
  | n + 1, s =>
    s.takeWhile (fun c => c != old) ++ new
      ++ replaceLoop old new n (s.dropWhile (fun c => c != old)).tail

/-- Go `strings.Replace(s, old, new, -1)` for a one-character `old`: the
string is returned unchanged when `old == new` or `old` does not occur,
otherwise all `Count(s, old)` occurrences are replaced. -/
def Replace (s : String) (old : Char) (new : String) : String :=
  if new = String.mk [old] then s
  else if s.data.count old = 0 then s
  else String.mk (replaceLoop old new.data (s.data.count old) s.data)

/-- The ASCII branch of Go `strings.ToUpper`: `c -= 'a' - 'A'` for a lower-case
ASCII letter. -/
def asciiUpper (c : Char) : Char :=
  if 'a' ≤ c ∧ c ≤ 'z' then Char.ofNat (c.toNat - 32) else c

/-- Go `strings.ToUpper`: a string of ASCII characters only is mapped letter by
letter; any other string is mapped rune by rune through `unicode.ToUpper`,
whose table is the parameter `unicodeUpper`. -/
def ToUpper (unicodeUpper : Char → Char) (s : String) : String :=
  if s.data.all (fun c => decide (c.toNat < 128)) then String.mk (s.data.map asciiUpper)
  else String.mk (s.data.map unicodeUpper)

/-- Go `strings.Join(elems, sep)`. -/
def Join : List String → String → String
  | [], _ => ""
  | [a], _ => a
  | a :: rest, sep => rest.foldl (fun b s => b ++ sep ++ s) a

/-- The scan of Go `fmt.Sprintf` over the format, for the verb `%s` with string
operands: a `%s` consumes the next operand, any other character is copied; a
`%s` without operand prints Go's `%!s(MISSING)`. -/
def sprintfAux : List Char → List String → List Char
  | '%' :: 's' :: rest, a :: as => a.data ++ sprintfAux rest as
  | '%' :: 's' :: rest, [] => "%!s(MISSING)".data ++ sprintfAux rest []
  | c :: rest, as => c :: sprintfAux rest as
  | [], _ => []

/-- Go `fmt.Sprintf(format, args...)` restricted to the verb `%s` and string
operands, the only use the program makes of it besides `%d`. -/
def Sprintf (format : String) (args : List String) : String :=
  String.mk (sprintfAux format.data args)

/-- Go `fmt.Sprintf("%d", n)`: the decimal rendering of an integer. -/
def Sprintf_d (n : Int) : String :=
  match n with
  | Int.ofNat m => Nat.repr m
  | Int.negSucc m => "-" ++ Nat.repr (m + 1)

/-- One step of the replacer behind Go `html.EscapeString`. -/
def escapeChar (c : Char) : List Char :=
  if c = '&' then "&amp;".data
  else if c = Char.ofNat 39 then "&#39;".data
  else if c = '<' then "&lt;".data
  else if c = '>' then "&gt;".data
  else if c = Char.ofNat 34 then "&#34;".data
  else [c]

/-- Go `html.EscapeString`: the five characters `& ' < > "` are replaced by
their entities, every other character is kept. -/
def EscapeString (s : String) : String :=
  String.mk (s.data.flatMap escapeChar)

/-- An operand of Go `fmt.Fprint`: a string, or an `error` value (printed
through its `Error()` text, and not of string kind). -/
inductive Operand where
  | str (s : String)
  | err (description : String)

/-- The `reflect.String` kind test of `doPrint`. -/
def Operand.isString : Operand → Bool
  | Operand.str _ => true
  | Operand.err _ => false

/-- The text printed for one operand under the verb `%v`. -/
def Operand.text : Operand → String
  | Operand.str s => s
  | Operand.err d => d

/-- The loop of Go `fmt`'s `doPrint`: a space is written between two operands
when neither is a string. -/
def doPrint : List Operand → Nat → Bool → String
  | [], _, _ => ""
  | arg :: rest, argNum, prevString =>
    (if 0 < argNum ∧ arg.isString = false ∧ prevString = false then " " else "")
      ++ arg.text ++ doPrint rest (argNum + 1) arg.isString

/-- Go `fmt.Sprint(a...)`. -/
def Sprint (a : List Operand) : String :=
  doPrint a 0 false

/-! ## Data model -/

/-- One command type: `type command struct`. -/
structure command where
  path : String
  cmd : String
deriving DecidableEq, Repr

/-- The `config` struct; the field `no_index` of the source is `noIndex` here
(`no_index` is a reserved word of Lean). -/
structure config where
  host : String
  port : Int
  set_cgi : Bool
  set_form : Bool
  noIndex : Bool
  add_exit : Bool
deriving DecidableEq, Repr

/-- The outcome of a Go function that returns `(value, error)` and may panic. -/
inductive Outcome (α : Type) where
  | ok (value : α)
  | error (msg : String)
  | panic
deriving DecidableEq, Repr

/-! ## `get_config`: validation of the positional arguments -/

/-- The loop `for i := 0; i < len(args); i += 2` of `get_config`, on the
arguments from index `i` on, with the commands collected so far.  `path[0]` on
an empty path and `args[i+1]` past the end are index-out-of-range panics. -/
def get_config_loop : List String → List command → Outcome (List command)
  | [], cmd_handlers => Outcome.ok cmd_handlers
  | [_], _ => Outcome.panic
  | path :: cmd :: rest, cmd_handlers =>
    match path.data with
    | [] => Outcome.panic
    | c :: _ =>
      if c ≠ '/' then
        Outcome.error (Sprintf "error: path %s dont starts with /" [path])
      else get_config_loop rest (cmd_handlers ++ [{ path := path, cmd := cmd }])

/-- The argument validation of `get_config`: `args` is `flag.Args()` and
`app_config` the configuration filled in by the flag parser. -/
def get_config (args : List String) (app_config : config) :
    Outcome (List command × config) :=
  if args.length < 2 ∨ args.length % 2 = 1 then
    Outcome.error "error: need pairs of path and shell command"
  else
    match get_config_loop args [] with
    | Outcome.ok cmd_handlers => Outcome.ok (cmd_handlers, app_config)
    | Outcome.error msg => Outcome.error msg
    | Outcome.panic => Outcome.panic

/-! ## The environment builder -/

/-- The allow-list `[...]string{"PATH", "HOME", "LANG", "USER", "TMPDIR"}`. -/
def env_var_names : List String := ["PATH", "HOME", "LANG", "USER", "TMPDIR"]

/-- The body of the outer loop of `proxy_system_env` for one `env_raw`: it is
appended once for every allow-listed name equal to `env[0]`. -/
def proxy_one (cmdEnv : List String) (env_raw : String) : List String :=
  env_var_names.foldl
    (fun acc env_var_name =>
      if (SplitN env_raw '=' 2).head? = some env_var_name then acc ++ [env_raw] else acc)
    cmdEnv

/-- The function `proxy_system_env`: `cmdEnv` is `cmd.Env` on entry and
`environ` is `os.Environ()`; the result is `cmd.Env` on exit. -/
def proxy_system_env (cmdEnv : List String) (environ : List String) : List String :=
  environ.foldl proxy_one cmdEnv

/-- The environment a process started by `os/exec` receives: `cmd.Env`, or the
current process's environment when `cmd.Env` is nil (no entry was ever
appended). -/
def effective_env (cmdEnv : List String) (environ : List String) : List String :=
  if cmdEnv.isEmpty then environ else cmdEnv

/-- The name of an environment entry: the text before the first `=`. -/
def env_name (entry : String) : String :=
  String.mk (entry.data.takeWhile (fun c => c != '='))

/-- An HTTP request, as far as the program reads it.  `Header` and the parsed
form are the entries of the Go maps in iteration order; `Form` is the result
of `req.ParseForm()`: the form, or the error's text. -/
structure Request where
  Method : String
  RequestURI : String
  Proto : String
  RemoteAddr : String
  Path : String
  RawQuery : String
  Header : List (String × List String)
  Form : Except String (List (String × List String))

/-- The function `get_form`: on a parse error `cmd.Env` is left as it is;
otherwise one entry is appended per key visited. -/
def get_form (cmdEnv : List String) (req : Request) : List String :=
  match req.Form with
  | Except.error _ => cmdEnv
  | Except.ok form =>
    form.foldl
      (fun env kv => env ++ [Sprintf "%s=%s" ["v_" ++ kv.1, Join kv.2 ","]])
      cmdEnv

/-- The loop `for header_name, header_value := range req.Header` of
`set_cgi_env`: `header_value[0]` on a header without value is an
index-out-of-range panic. -/
def cgi_http_vars (unicodeUpper : Char → Char) :
    List (String × List String) → List String → Option (List String)
  | [], cmdEnv => some cmdEnv
  | (header_name, header_value) :: rest, cmdEnv =>
    match header_value with
    | [] => none
    | first :: _ =>
      let env_name := ToUpper unicodeUpper (Replace header_name '-' "_")
      cgi_http_vars unicodeUpper rest (cmdEnv ++ [Sprintf "HTTP_%s=%s" [env_name, first]])

/-- The array `CGI_vars` of `set_cgi_env`, given the two pieces of the remote
address it indexes. -/
def CGI_vars (req : Request) (app_config : config) (addr0 addr1 : String) :
    List (String × String) :=
  [ ("PATH_INFO", req.Path),
    ("QUERY_STRING", req.RawQuery),
    ("REMOTE_ADDR", addr0),
    ("REMOTE_PORT", addr1),
    ("REQUEST_METHOD", req.Method),
    ("REQUEST_URI", req.RequestURI),
    ("SCRIPT_NAME", req.Path),
    ("SERVER_NAME", app_config.host),
    ("SERVER_PORT", Sprintf_d app_config.port),
    ("SERVER_PROTOCOL", req.Proto),
    ("SERVER_SOFTWARE", "shell2http") ]

/-- The function `set_cgi_env`: the `HTTP_*` loop, then `remote_addr[0]` and
`remote_addr[1]` of `strings.Split(req.RemoteAddr, ":")` (each an
index-out-of-range panic when the piece is missing), then one entry per row of
`CGI_vars`. -/
def set_cgi_env (unicodeUpper : Char → Char) (cmdEnv : List String) (req : Request)
    (app_config : config) : Option (List String) :=
  match cgi_http_vars unicodeUpper req.Header cmdEnv with
  | none => none
  | some env =>
    let remote_addr := Split req.RemoteAddr ':'
    match remote_addr[0]?, remote_addr[1]? with
    | some addr0, some addr1 =>
      some ((CGI_vars req app_config addr0 addr1).foldl
        (fun e row => e ++ [Sprintf "%s=%s" [row.1, row.2]]) env)
    | _, _ => none

/-- The environment part of `shell_handler`: `proxy_system_env`, then
`get_form` when `set_form`, then `set_cgi_env` when `set_cgi`; the result is
`cmd.Env`, or `none` when the handler panics on the way. -/
def shell_handler_env (unicodeUpper : Char → Char) (app_config : config)
    (environ : List String) (req : Request) : Option (List String) :=
  let env0 := proxy_system_env [] environ
  let env1 := if app_config.set_form then get_form env0 req else env0
  if app_config.set_cgi then set_cgi_env unicodeUpper env1 req app_config else some env1

/-! ## The command executor -/

/-- What `os_exec_command.Output()` returns: the captured standard output and
the error, if any, by its description. -/
structure ExecResult where
  shell_out : String
  err : Option String

/-- The `http.ResponseWriter` as the handler sees it: the status code set by
`WriteHeader` (`none` while it was never called, which the server sends as
200) and the body written so far. -/
structure ResponseWriter where
  status : Option Nat
  body : String
deriving DecidableEq, Repr

/-- Go `fmt.Fprint(rw, a...)`: the operands are formatted and written to the
body. -/
def Fprint (rw : ResponseWriter) (a : List Operand) : ResponseWriter :=
  { rw with body := rw.body ++ Sprint a }

/-- The status line the server sends for a response writer. -/
def ResponseWriter.sentStatus (rw : ResponseWriter) : Nat :=
  rw.status.getD 200

/-- The closure `shell_handler` for the command `cmd`: `run` is the operating
system running `sh -c cmd` with an environment; `none` is a panic. -/
def shell_handler (unicodeUpper : Char → Char) (app_config : config) (cmd : String)
    (environ : List String) (run : String → List String → ExecResult)
    (rw : ResponseWriter) (req : Request) : Option ResponseWriter :=
  match shell_handler_env unicodeUpper app_config environ req with
  | none => none
  | some cmdEnv =>
    let out := run cmd (effective_env cmdEnv environ)
    match out.err with
    | some err => some (Fprint rw [Operand.str "exec error: ", Operand.err err])
    | none => some (Fprint rw [Operand.str out.shell_out])

/-- Go `os.Getenv(key)` on the process environment `environ`: the value of the
first entry `key=value`, or the empty string when there is none. -/
def Getenv (environ : List String) (key : String) : String :=
  match environ.find? (fun s => s.data.contains '=' && decide (env_name s = key)) with
  | some s => String.mk (s.data.dropWhile (fun c => c != '=')).tail
  | none => ""

/-- Go `filepath.SplitList(path)` on Unix: no element for the empty string,
otherwise the pieces between the `:`. -/
def SplitList (path : String) : List String :=
  if path = "" then [] else Split path ':'

/-- Go `exec.LookPath(file)` on Unix for a file name without `/`, as
`exec.Command` calls it: the directories of `$PATH` are tried in order (an
empty element meaning `.`) and the first one where the file system holds an
executable `file` is the answer; `isExecutable dir file` is the file system's
answer for `file` in `dir`.  `none` is the error `executable file not found in
$PATH`. -/
def LookPath (isExecutable : String → String → Bool) (environ : List String)
    (file : String) : Option String :=
  ((SplitList (Getenv environ "PATH")).map (fun dir => if dir = "" then "." else dir)).find?
    (fun dir => isExecutable dir file)

/-- The error `Output()` returns when `exec.Command` could not resolve `sh`. -/
def lookPathError : ExecResult :=
  { shell_out := "", err := some "exec: \"sh\": executable file not found in $PATH" }

/-- The pair `exec.Command("sh", "-c", cmd)` and `Output()` of `shell_handler`,
as a runner for it: when `LookPath` fails no process is started and `Output()`
returns the lookup error; otherwise the process `spawn` is started with the
environment it is given. -/
def os_exec (isExecutable : String → String → Bool) (environ : List String)
    (spawn : String → List String → ExecResult) (cmd : String) (env : List String) :
    ExecResult :=
  match LookPath isExecutable environ "sh" with
  | some _ => spawn cmd env
  | none => lookPathError

/-- The environment of the process `shell_handler` starts, if it starts one:
none when the handler panics before or when `sh` is not found. -/
def shell_handler_spawn_env (isExecutable : String → String → Bool)
    (unicodeUpper : Char → Char) (app_config : config) (environ : List String)
    (req : Request) : Option (List String) :=
  match shell_handler_env unicodeUpper app_config environ req with
  | none => none
  | some cmdEnv =>
    match LookPath isExecutable environ "sh" with
    | some _ => some (effective_env cmdEnv environ)
    | none => none

/-! ## `setup_handlers`: registration and the index page -/

/-- The template `INDEX_HTML`. -/
def INDEX_HTML : String :=
  "\n<!DOCTYPE html>\n<html>\n<head>\n\t<title>shell2http</title>\n</head>\n<body>\n\t<h1>shell2http</h1>\n\t<ul>\n\t\t%s\n\t</ul>\n\tGet from: <a href=\"https://github.com/msoap/shell2http\">github.com/msoap/shell2http</a>\n</body>\n</html>\n"

/-- The format of one list item of the index page. -/
def LI_FORMAT : String :=
  "<li><a href=\"%s\">%s</a> <span style=\"color: #888\">- %s<span></li>"

/-- The format of the list item of the `/exit` command. -/
def LI_EXIT_FORMAT : String :=
  "<li><a href=\"%s\">%s</a></li>"

/-- The list item `setup_handlers` appends to `index_li_html` for one row. -/
def li_html (row : command) : String :=
  Sprintf LI_FORMAT [row.path, row.path, EscapeString row.cmd]

/-- Go `http.HandleFunc(pattern, handler)` on the default mux, by the list of
patterns registered so far: an empty pattern and a second registration of a
pattern are panics (`http: invalid pattern`, `http: multiple registrations`). -/
def HandleFunc (mux : List String) (pattern : String) : Option (List String) :=
  if pattern = "" ∨ pattern ∈ mux then none else some (mux ++ [pattern])

/-- The loop `for _, row := range cmd_handlers` of `setup_handlers`, on the
registered patterns and `index_li_html`. -/
def register_commands :
    List command → List String × String → Option (List String × String)
  | [], st => some st
  | row :: rest, (mux, index_li_html) =>
    match HandleFunc mux row.path with
    | none => none
    | some mux1 => register_commands rest (mux1, index_li_html ++ li_html row)

/-- What `setup_handlers` leaves behind: the registered patterns and the index
page served at `/`, if one was built. -/
structure Handlers where
  patterns : List String
  index_html : Option String
deriving DecidableEq, Repr

/-- The function `setup_handlers`; `none` is a panic of `http.HandleFunc`. -/
def setup_handlers (cmd_handlers : List command) (app_config : config) :
    Option Handlers :=
  match register_commands cmd_handlers ([], "") with
  | none => none
  | some (mux, index_li_html) =>
    let afterExit : Option (List String × String) :=
      if app_config.add_exit then
        match HandleFunc mux "/exit" with
        | none => none
        | some mux1 =>
          some (mux1, index_li_html ++ Sprintf LI_EXIT_FORMAT ["/exit", "/exit"])
      else some (mux, index_li_html)
    match afterExit with
    | none => none
    | some (mux2, index_li_html2) =>
      if app_config.noIndex = false then
        match HandleFunc mux2 "/" with
        | none => none
        | some mux3 =>
          some { patterns := mux3, index_html := some (Sprintf INDEX_HTML [index_li_html2]) }
      else some { patterns := mux2, index_html := none }


/-! ## The specification's wording, for comparison with the code -/

/-- The header-name rewriting as the specification words it: every `-` is
replaced by `_`. -/
def dashToUnderscore (s : String) : String :=
  String.mk (s.data.map (fun c => if c = '-' then '_' else c))

/-- The `HTTP_*` entry the specification describes for one header: the name
with `-` replaced by `_` and upper-cased, valued with the first value. -/
def http_entry (unicodeUpper : Char → Char) (header : String × List String) : String :=
  "HTTP_" ++ ToUpper unicodeUpper (dashToUnderscore header.1) ++ "=" ++ header.2.headD ""

/-- The `v_*` entry the specification describes for one form field: the
values joined with commas in their order. -/
def form_entry (field : String × List String) : String :=
  "v_" ++ field.1 ++ "=" ++ ",".intercalate field.2

/-- The form-derived entries of a request: none when the form does not parse. -/
def form_entries (req : Request) : List String :=
  match req.Form with
  | Except.ok form => form.map form_entry
  | Except.error _ => []

/-- The entry written for one row of `CGI_vars`. -/
def cgi_entry (row : String × String) : String :=
  row.1 ++ "=" ++ row.2

/-- The pairing of positional arguments the specification describes:
`(args[2i], args[2i+1])` in order. -/
def arg_pairs : List String → List command
  | path :: cmd :: rest => { path := path, cmd := cmd } :: arg_pairs rest
  | _ => []

/-- The text of `INDEX_HTML` before its `%s`. -/
def INDEX_HEAD : String :=
  "\n<!DOCTYPE html>\n<html>\n<head>\n\t<title>shell2http</title>\n</head>\n<body>\n\t<h1>shell2http</h1>\n\t<ul>\n\t\t"

/-- The text of `INDEX_HTML` after its `%s`. -/
def INDEX_TAIL : String :=
  "\n\t</ul>\n\tGet from: <a href=\"https://github.com/msoap/shell2http\">github.com/msoap/shell2http</a>\n</body>\n</html>\n"

/-- The list item of the `/exit` command as it stands in the page. -/
def EXIT_ITEM : String :=
  "<li><a href=\"/exit\">/exit</a></li>"

/-- The replacements the specification lists for the escaped rendering: the
characters `&`, `'`, `<`, `>`, `"` and their entities. -/
def entity_table : List (Char × String) :=
  [ ('&', "&amp;"), (Char.ofNat 39, "&#39;"), ('<', "&lt;"), ('>', "&gt;"),
    (Char.ofNat 34, "&#34;") ]

/-- The five entities `html.EscapeString` writes. -/
def entities : List (List Char) :=
  ["&amp;".data, "&#39;".data, "&lt;".data, "&gt;".data, "&#34;".data]

/-- The escaped rendering of a text as the specification describes it: every
character of the table is replaced by its entity, every other character is
kept. -/
def html_escaped (text : List Char) : List Char :=
  text.flatMap (fun c =>
    match entity_table.lookup c with
    | some entity => entity.data
    | none => [c])

/-- The reading of an escaped rendering, as a browser does it for the five
entities: at an entity of the table its character is produced and the
`skip` remaining characters of the entity are passed over; any other
character is kept. -/
def html_unescape_aux : Nat → List Char → List Char
  | _, [] => []
  | skip + 1, _ :: cs => html_unescape_aux skip cs
  | 0, c :: cs =>
    match entity_table.find? (fun p => p.2.data.isPrefixOf (c :: cs)) with
    | some p => p.1 :: html_unescape_aux (p.2.data.length - 1) cs
    | none => c :: html_unescape_aux 0 cs

/-- The text an escaped rendering displays. -/
def html_unescape (rendering : List Char) : List Char :=
  html_unescape_aux 0 rendering

/-- A file system whose only `sh` is in `/bin`. -/
def binSh (dir file : String) : Bool :=
  dir == "/bin" && file == "sh"

/-! ## Concrete inputs -/

/-- The request `GET /x?a=1&a=2&b=x` with the header `X-Foo: bar` (and a second
value `baz`), from `127.0.0.1:5000`. -/
def sampleRequest : Request :=
  { Method := "GET", RequestURI := "/x?a=1&a=2&b=x", Proto := "HTTP/1.1",
    RemoteAddr := "127.0.0.1:5000", Path := "/x", RawQuery := "a=1&a=2&b=x",
    Header := [("X-Foo", ["bar", "baz"])],
    Form := Except.ok [("a", ["1", "2"]), ("b", ["x"])] }

/-- A configuration with neither form nor CGI mode. -/
def plainConfig : config :=
  { host := "", port := 8080, set_cgi := false, set_form := false,
    noIndex := false, add_exit := false }

/-- A configuration with both form and CGI mode. -/
def formCgiConfig : config :=
  { host := "", port := 8080, set_cgi := true, set_form := true,
    noIndex := false, add_exit := false }

/-- Two routes; the first command holds every character `html.EscapeString`
rewrites. -/
def sampleRoutes : List command :=
  [ { path := "/greet", cmd := "echo '<b>' && echo \"R&D\"" },
    { path := "/date", cmd := "date" } ]

/-- A run of the command that fails after writing some output. -/
def failingRun (_cmd : String) (_env : List String) : ExecResult :=
  { shell_out := "partial output", err := some "exit status 1" }

/-! ## Lemmas on the library fragment -/

theorem Sprintf_kv (a b : String) : Sprintf "%s=%s" [a, b] = a ++ "=" ++ b := by
  apply String.ext
  simp [Sprintf, sprintfAux]

theorem Sprintf_http (a b : String) :
    Sprintf "HTTP_%s=%s" [a, b] = "HTTP_" ++ a ++ "=" ++ b := by
  apply String.ext
  simp [Sprintf, sprintfAux]

theorem foldl_append_singleton {α β : Type} (f : α → β) (l : List α) (init : List β) :
    l.foldl (fun e x => e ++ [f x]) init = init ++ l.map f := by
  induction l generalizing init with
  | nil => simp
  | cons x xs ih => simp [ih]

theorem intercalate_go_eq_foldl (sep : String) (rest : List String) (acc : String) :
    String.intercalate.go acc sep rest = rest.foldl (fun b s => b ++ sep ++ s) acc := by
  induction rest generalizing acc with
  | nil => simp [String.intercalate.go]
  | cons x xs ih => simp [String.intercalate.go, ih]

theorem Join_eq_intercalate (elems : List String) (sep : String) :
    Join elems sep = sep.intercalate elems := by
  match elems with
  | [] => rfl
  | [a] => simp [Join, String.intercalate, String.intercalate.go]
  | a :: b :: rest =>
    simp [Join, String.intercalate, intercalate_go_eq_foldl]

theorem replaceLoop_count (old : Char) (new : List Char) (s : List Char) :
    replaceLoop old new (s.count old) s
      = s.flatMap (fun c => if c = old then new else [c]) := by
  induction s with
  | nil => simp [replaceLoop]
  | cons c cs ih =>
    by_cases h : c = old
    · subst h
      simp [replaceLoop, ih]
    · have hne : (c != old) = true := by simpa using h
      rw [List.count_cons_of_ne (Ne.symm h)]
      cases hn : cs.count old with
      | zero =>
        rw [hn] at ih
        simp only [replaceLoop] at ih ⊢
        simp [h, ← ih]
      | succ n =>
        rw [hn] at ih
        simp only [replaceLoop] at ih ⊢
        simp [h, hne, List.takeWhile_cons, List.dropWhile_cons, ← ih]

theorem Replace_dash (s : String) : Replace s '-' "_" = dashToUnderscore s := by
  have key : replaceLoop '-' "_".data (s.data.count '-') s.data
      = s.data.map (fun c => if c = '-' then '_' else c) := by
    rw [replaceLoop_count]
    induction s.data with
    | nil => rfl
    | cons c cs ih =>
      by_cases h : c = '-' <;> simp [h, List.flatMap_cons, ih]
  unfold Replace dashToUnderscore
  rw [if_neg (by decide)]
  split
  · rename_i h0
    apply String.ext
    have : ∀ l : List Char, l.count '-' = 0 → l.map (fun c => if c = '-' then '_' else c) = l := by
      intro l hl
      induction l with
      | nil => rfl
      | cons c cs ih =>
        by_cases h : c = '-'
        · subst h; simp at hl
        · rw [List.count_cons_of_ne (Ne.symm h)] at hl
          simp [h, ih hl]
    simp [this _ h0]
  · rw [key]


theorem SplitN_head (s : String) :
    (SplitN s '=' 2).head? = some (env_name s) := by
  unfold SplitN env_name
  rw [if_neg (by decide)]
  cases hs : s.data with
  | nil => simp [genSplit]
  | cons c cs =>
    have hcuts : min 2 ((c :: cs).length + 1) - 1 = 1 := by
      simp only [List.length_cons]; omega
    rw [hcuts]
    simp only [genSplit]
    split
    · rename_i hdrop
      have := List.takeWhile_append_dropWhile (fun x => x != '=') (c :: cs)
      rw [hdrop, List.append_nil] at this
      simp only [List.map_cons, List.map_nil, List.head?_cons]
      rw [this]
    · simp

theorem proxy_one_sub (cmdEnv : List String) (env_raw : String) :
    ∃ k : Nat, proxy_one cmdEnv env_raw = cmdEnv ++ List.replicate k env_raw
      ∧ (0 < k → env_name env_raw ∈ env_var_names) := by
  unfold proxy_one
  rw [SplitN_head]
  by_cases h : env_name env_raw ∈ env_var_names
  · suffices hh : ∀ (names : List String) (acc : List String), ∃ k,
        names.foldl (fun acc n => if some (env_name env_raw) = some n then acc ++ [env_raw] else acc) acc
          = acc ++ List.replicate k env_raw by
      obtain ⟨k, hk⟩ := hh env_var_names cmdEnv
      exact ⟨k, hk, fun _ => h⟩
    intro names
    induction names with
    | nil => intro acc; exact ⟨0, by simp⟩
    | cons n ns ih =>
      intro acc
      simp only [List.foldl_cons]
      split
      · obtain ⟨k, hk⟩ := ih (acc ++ [env_raw])
        refine ⟨k + 1, ?_⟩
        rw [hk, List.replicate_succ]
        simp
      · exact ih acc
  · refine ⟨0, ?_, fun hk => absurd hk (by decide)⟩
    suffices hh : ∀ (names : List String) (acc : List String), (∀ n ∈ names, env_name env_raw ≠ n) →
        names.foldl (fun acc n => if some (env_name env_raw) = some n then acc ++ [env_raw] else acc) acc
          = acc by
      simpa using hh env_var_names cmdEnv (fun n hn heq => h (heq ▸ hn))
    intro names
    induction names with
    | nil => intro acc _; rfl
    | cons n ns ih =>
      intro acc hall
      simp only [List.foldl_cons]
      rw [if_neg (by simpa using hall n (by simp))]
      exact ih acc (fun m hm => hall m (by simp [hm]))

/-- Every entry `proxy_system_env` appends carries an allow-listed name. -/
theorem proxy_system_env_allowed (environ cmdEnv : List String) :
    ∃ added, proxy_system_env cmdEnv environ = cmdEnv ++ added
      ∧ ∀ entry ∈ added, entry ∈ environ ∧ env_name entry ∈ env_var_names := by
  unfold proxy_system_env
  induction environ generalizing cmdEnv with
  | nil => exact ⟨[], by simp⟩
  | cons e es ih =>
    obtain ⟨k, hk, hname⟩ := proxy_one_sub cmdEnv e
    obtain ⟨added, hadd, hall⟩ := ih (proxy_one cmdEnv e)
    refine ⟨List.replicate k e ++ added, ?_, ?_⟩
    · simp only [List.foldl_cons]
      rw [hadd, hk, List.append_assoc]
    · intro entry hentry
      rcases List.mem_append.mp hentry with h | h
      · have hk0 : 0 < k := by
          rcases Nat.eq_zero_or_pos k with h0 | h0
          · subst h0; simp at h
          · exact h0
        have := (List.mem_replicate.mp h).2
        subst this
        exact ⟨by simp, hname hk0⟩
      · exact ⟨List.mem_cons_of_mem _ (hall entry h).1, (hall entry h).2⟩

theorem cgi_http_vars_eq (unicodeUpper : Char → Char) (headers : List (String × List String))
    (cmdEnv : List String) (hval : ∀ h ∈ headers, h.2 ≠ []) :
    cgi_http_vars unicodeUpper headers cmdEnv
      = some (cmdEnv ++ headers.map (http_entry unicodeUpper)) := by
  induction headers generalizing cmdEnv with
  | nil => simp [cgi_http_vars]
  | cons h hs ih =>
    obtain ⟨name, value⟩ := h
    cases value with
    | nil => exact absurd rfl (hval (name, []) (by simp))
    | cons v vs =>
      simp only [cgi_http_vars]
      rw [ih _ (fun h hh => hval h (List.mem_cons_of_mem _ hh))]
      simp [http_entry, Sprintf_http, Replace_dash]

theorem set_cgi_env_eq (unicodeUpper : Char → Char) (cmdEnv : List String) (req : Request)
    (app_config : config) (hval : ∀ h ∈ req.Header, h.2 ≠ [])
    (addr0 addr1 : String) (rest : List String)
    (hsplit : Split req.RemoteAddr ':' = addr0 :: addr1 :: rest) :
    set_cgi_env unicodeUpper cmdEnv req app_config
      = some (cmdEnv ++ req.Header.map (http_entry unicodeUpper)
          ++ (CGI_vars req app_config addr0 addr1).map cgi_entry) := by
  unfold set_cgi_env
  rw [cgi_http_vars_eq unicodeUpper req.Header cmdEnv hval, hsplit]
  simp only [List.getElem?_cons_zero, List.getElem?_cons_succ]
  have hf : (fun (e : List String) (row : String × String) => e ++ [Sprintf "%s=%s" [row.1, row.2]])
      = (fun e row => e ++ [cgi_entry row]) := by
    funext e row
    rw [Sprintf_kv]; rfl
  rw [hf, foldl_append_singleton]

theorem get_form_eq (cmdEnv : List String) (req : Request)
    (form : List (String × List String)) (hform : req.Form = Except.ok form) :
    get_form cmdEnv req = cmdEnv ++ form.map form_entry := by
  unfold get_form
  rw [hform]
  have hf : (fun (env : List String) (kv : String × List String) =>
        env ++ [Sprintf "%s=%s" ["v_" ++ kv.1, Join kv.2 ","]])
      = (fun env kv => env ++ [form_entry kv]) := by
    funext env kv
    rw [Sprintf_kv, Join_eq_intercalate]; rfl
  simp only [hf, foldl_append_singleton]

theorem get_form_eq_entries (cmdEnv : List String) (req : Request) :
    get_form cmdEnv req = cmdEnv ++ form_entries req := by
  cases hform : req.Form with
  | ok form => rw [get_form_eq cmdEnv req form hform]; simp [form_entries, hform]
  | error e => simp [get_form, form_entries, hform]

/-! ## The remote address and the argument validation on well-formed input -/

theorem genSplit_one_colon (host port : List Char) (hhost : ':' ∉ host) :
    genSplit ':' 1 (host ++ ':' :: port) = [host, port] := by
  have hdrop : (host ++ ':' :: port).dropWhile (fun c => c != ':') = ':' :: port := by
    induction host with
    | nil => simp
    | cons c cs ih =>
      have hc : c ≠ ':' := fun h => hhost (by simp [h])
      have hcs : ':' ∉ cs := fun h => hhost (by simp [h])
      simp [List.dropWhile_cons, hc, ih hcs]
  have htake : (host ++ ':' :: port).takeWhile (fun c => c != ':') = host := by
    clear hdrop
    induction host with
    | nil => simp
    | cons c cs ih =>
      have hc : c ≠ ':' := fun h => hhost (by simp [h])
      have hcs : ':' ∉ cs := fun h => hhost (by simp [h])
      simp [List.takeWhile_cons, hc, ih hcs]
  simp only [genSplit, hdrop, htake]

/-- For every request whose remote address contains no `:`, `set_cgi_env`
panics: `strings.Split` yields one piece and `remote_addr[1]` is out of range. -/
theorem set_cgi_env_panics_without_colon (unicodeUpper : Char → Char)
    (cmdEnv : List String) (req : Request) (app_config : config)
    (hcolon : ':' ∉ req.RemoteAddr.data) :
    set_cgi_env unicodeUpper cmdEnv req app_config = none := by
  have hsplit : Split req.RemoteAddr ':' = [req.RemoteAddr] := by
    unfold Split
    rw [List.count_eq_zero_of_not_mem hcolon]
    rfl
  unfold set_cgi_env
  cases cgi_http_vars unicodeUpper req.Header cmdEnv with
  | none => rfl
  | some env => simp [hsplit]

/-- For a remote address `host:port` in which neither part contains a `:`,
`strings.Split` yields exactly the host and the port. -/
theorem Split_host_port (host port : String) (hhost : ':' ∉ host.data)
    (hport : ':' ∉ port.data) :
    Split (host ++ ":" ++ port) ':' = [host, port] := by
  unfold Split
  have hdata : (host ++ ":" ++ port).data = host.data ++ ':' :: port.data := by
    simp [String.data_append]
  have hcount : (host.data ++ ':' :: port.data).count ':' = 1 := by
    rw [List.count_append, List.count_cons_self, List.count_eq_zero_of_not_mem hhost,
      List.count_eq_zero_of_not_mem hport]
  rw [hdata, hcount, genSplit_one_colon host.data port.data hhost]
  rfl

/-- For a remote address `host:port` in which neither part contains a `:`
(an IPv4 address or a host name), `set_cgi_env` sets `REMOTE_ADDR=host` and
`REMOTE_PORT=port`. -/
theorem set_cgi_env_remote_addr (unicodeUpper : Char → Char) (cmdEnv : List String)
    (req : Request) (app_config : config) (host port : String)
    (hval : ∀ h ∈ req.Header, h.2 ≠ [])
    (haddr : req.RemoteAddr = host ++ ":" ++ port)
    (hhost : ':' ∉ host.data) (hport : ':' ∉ port.data) :
    ∃ env, set_cgi_env unicodeUpper cmdEnv req app_config = some env
      ∧ "REMOTE_ADDR=" ++ host ∈ env ∧ "REMOTE_PORT=" ++ port ∈ env := by
  refine ⟨_, set_cgi_env_eq unicodeUpper cmdEnv req app_config hval host port []
    (by rw [haddr]; exact Split_host_port host port hhost hport), ?_, ?_⟩
  · simp [CGI_vars, cgi_entry]
  · simp [CGI_vars, cgi_entry]

theorem get_config_loop_ok (args : List String) (cmd_handlers : List command)
    (heven : args.length % 2 = 0)
    (hall : ∀ row ∈ arg_pairs args, ∃ cs, row.path.data = '/' :: cs) :
    get_config_loop args cmd_handlers = Outcome.ok (cmd_handlers ++ arg_pairs args) := by
  induction args, cmd_handlers using get_config_loop.induct with
  | case1 acc => simp [get_config_loop, arg_pairs]
  | case2 x acc => simp at heven
  | case3 path cmd rest acc hp =>
    obtain ⟨cs, hcs⟩ := hall ⟨path, cmd⟩ (by simp [arg_pairs])
    simp [hp] at hcs
  | case4 path cmd rest acc c cs hp hc =>
    obtain ⟨cs1, hcs⟩ := hall ⟨path, cmd⟩ (by simp [arg_pairs])
    simp only [hp] at hcs
    simp at hc
    simp at hcs
    exact absurd hcs.1 hc
  | case5 path cmd rest acc c cs hp hc ih =>
    simp only [get_config_loop, hp]
    rw [if_neg hc]
    rw [ih (by simp only [List.length_cons] at heven; omega) (fun row hrow => hall row (by simp [arg_pairs, hrow]))]
    simp [arg_pairs]

/-- When the arguments are an even number, at least two, and every path
starts with `/`, `get_config` succeeds and returns exactly the commands
`(args[2i], args[2i+1])` in order. -/
theorem get_config_ok (args : List String) (app_config : config)
    (hlen : 2 ≤ args.length) (heven : args.length % 2 = 0)
    (hall : ∀ row ∈ arg_pairs args, ∃ cs, row.path.data = '/' :: cs) :
    get_config args app_config = Outcome.ok (arg_pairs args, app_config) := by
  unfold get_config
  rw [if_neg (by omega), get_config_loop_ok args [] heven hall]
  simp

/-- Fewer than two arguments, or an odd number of them, is an error. -/
theorem get_config_bad_count (args : List String) (app_config : config)
    (hbad : args.length < 2 ∨ args.length % 2 = 1) :
    get_config args app_config
      = Outcome.error "error: need pairs of path and shell command" := by
  unfold get_config
  rw [if_pos hbad]

theorem get_config_loop_error (args : List String) (cmd_handlers : List command)
    (heven : args.length % 2 = 0)
    (hnonempty : ∀ row ∈ arg_pairs args, row.path.data ≠ [])
    (hbad : ∃ row ∈ arg_pairs args, ∀ cs, row.path.data ≠ '/' :: cs) :
    ∃ msg, get_config_loop args cmd_handlers = Outcome.error msg := by
  induction args, cmd_handlers using get_config_loop.induct with
  | case1 acc => simp [arg_pairs] at hbad
  | case2 x acc => simp at heven
  | case3 path cmd rest acc hp =>
    exact absurd hp (hnonempty ⟨path, cmd⟩ (by simp [arg_pairs]))
  | case4 path cmd rest acc c cs hp hc =>
    simp only [get_config_loop, hp]
    rw [if_pos hc]
    exact ⟨_, rfl⟩
  | case5 path cmd rest acc c cs hp hc ih =>
    simp only [get_config_loop, hp]
    rw [if_neg hc]
    apply ih (by simp only [List.length_cons] at heven; omega)
      (fun row hrow => hnonempty row (by simp [arg_pairs, hrow]))
    obtain ⟨row, hrow, hrowbad⟩ := hbad
    simp only [arg_pairs, List.mem_cons] at hrow
    rcases hrow with h | h
    · subst h
      simp at hc
      exact absurd (by rw [hp, hc]) (hrowbad cs)
    · exact ⟨row, h, hrowbad⟩

/-- When the arguments are an even number, at least two, no path is empty and
some path does not start with `/`, `get_config` returns an error. -/
theorem get_config_bad_path (args : List String) (app_config : config)
    (hlen : 2 ≤ args.length) (heven : args.length % 2 = 0)
    (hnonempty : ∀ row ∈ arg_pairs args, row.path.data ≠ [])
    (hbad : ∃ row ∈ arg_pairs args, ∀ cs, row.path.data ≠ '/' :: cs) :
    ∃ msg, get_config args app_config = Outcome.error msg := by
  unfold get_config
  rw [if_neg (by omega)]
  obtain ⟨msg, hmsg⟩ := get_config_loop_error args [] heven hnonempty hbad
  exact ⟨msg, by rw [hmsg]⟩

/-! ## Lemmas on the index page -/

theorem li_html_eq (row : command) :
    (li_html row).data
      = "<li><a href=\"".data ++ row.path.data ++ "\">".data ++ row.path.data
        ++ "</a> <span style=\"color: #888\">- ".data ++ (EscapeString row.cmd).data
        ++ "<span></li>".data := by
  simp [li_html, LI_FORMAT, Sprintf, sprintfAux]

theorem sprintfAux_cons_ne (c : Char) (text : List Char) (args : List String)
    (hc : c ≠ '%') :
    sprintfAux (c :: text) args = c :: sprintfAux text args := by
  simp [sprintfAux, hc]

theorem sprintfAux_skip (text rest : List Char) (args : List String)
    (htext : '%' ∉ text) :
    sprintfAux (text ++ rest) args = text ++ sprintfAux rest args := by
  induction text with
  | nil => rfl
  | cons c cs ih =>
    have hc : c ≠ '%' := fun h => htext (by simp [h])
    have hcs : '%' ∉ cs := fun h => htext (by simp [h])
    rw [List.cons_append, sprintfAux_cons_ne _ _ _ hc, ih hcs, List.cons_append]

theorem index_html_eq (index_li_html : String) :
    (Sprintf INDEX_HTML [index_li_html]).data
      = INDEX_HEAD.data
        ++ index_li_html.data
        ++ INDEX_TAIL.data := by
  have hsplit : INDEX_HTML.data
      = INDEX_HEAD.data
        ++ ('%' :: 's' :: (INDEX_TAIL.data ++ [])) := by
    rfl
  unfold Sprintf
  rw [hsplit, sprintfAux_skip _ _ _ (by decide), sprintfAux,
    sprintfAux_skip _ _ _ (by decide)]
  simp [sprintfAux]

theorem register_commands_eq (cmd_handlers : List command) (mux : List String)
    (index_li_html : String)
    (hnodup : (cmd_handlers.map command.path).Nodup)
    (hpath : ∀ row ∈ cmd_handlers, row.path ≠ "" ∧ row.path ∉ mux) :
    register_commands cmd_handlers (mux, index_li_html)
      = some (mux ++ cmd_handlers.map command.path,
          String.mk (index_li_html.data
            ++ cmd_handlers.flatMap (fun row => (li_html row).data))) := by
  induction cmd_handlers generalizing mux index_li_html with
  | nil => simp [register_commands]
  | cons row rest ih =>
    have hrow := hpath row (by simp)
    have hnd : row.path ∉ rest.map command.path ∧ (rest.map command.path).Nodup :=
      List.nodup_cons.mp hnodup
    simp only [register_commands, HandleFunc]
    rw [if_neg (by simp [hrow.1, hrow.2])]
    simp only
    rw [ih (mux ++ [row.path]) _ hnd.2]
    · simp [String.data_append]
    · intro r hr
      refine ⟨(hpath r (by simp [hr])).1, ?_⟩
      intro hmem
      rcases List.mem_append.mp hmem with h | h
      · exact (hpath r (by simp [hr])).2 h
      · have : r.path = row.path := by simpa using h
        exact hnd.1 (this ▸ List.mem_map_of_mem command.path hr)

theorem escapeChar_no_lt (c : Char) : '<' ∉ escapeChar c := by
  unfold escapeChar
  split_ifs with h1 h2 h3 h4 h5
  · decide
  · decide
  · decide
  · decide
  · decide
  · simpa using Ne.symm h3

theorem escapeChar_no_gt (c : Char) : '>' ∉ escapeChar c := by
  unfold escapeChar
  split_ifs with h1 h2 h3 h4 h5
  · decide
  · decide
  · decide
  · decide
  · decide
  · simpa using Ne.symm h4

theorem escapeChar_amp (c : Char) (pre post : List Char)
    (h : escapeChar c = pre ++ '&' :: post) :
    pre = [] ∧ escapeChar c ∈ entities := by
  have hlist : ∀ (tail : List Char), '&' ∉ tail → '&' :: tail = pre ++ '&' :: post → pre = [] := by
    intro tail htail heq
    cases pre with
    | nil => rfl
    | cons p ps =>
      exfalso
      apply htail
      have : tail = ps ++ '&' :: post := (List.cons.inj heq).2
      rw [this]
      simp
  unfold escapeChar at h ⊢
  split_ifs at h ⊢ with h1 h2 h3 h4 h5
  · exact ⟨hlist _ (by decide) h, by decide⟩
  · exact ⟨hlist _ (by decide) h, by decide⟩
  · exact ⟨hlist _ (by decide) h, by decide⟩
  · exact ⟨hlist _ (by decide) h, by decide⟩
  · exact ⟨hlist _ (by decide) h, by decide⟩
  · exfalso
    cases pre with
    | nil => exact h1 (List.cons.inj h).1
    | cons p ps =>
      have := congrArg List.length h
      simp at this

theorem escape_amp_begins_entity (s pre post : List Char)
    (h : s.flatMap escapeChar = pre ++ '&' :: post) :
    ∃ ent ∈ entities, ent <+: '&' :: post := by
  induction s generalizing pre with
  | nil => simp at h
  | cons c cs ih =>
    rw [List.flatMap_cons] at h
    rcases List.append_eq_append_iff.mp h with ⟨a, hpre, hrest⟩ | ⟨b, hblock, hrest⟩
    · exact ih a hrest
    · cases b with
      | nil => exact ih [] (by simpa using hrest.symm)
      | cons x xs =>
        have hx : x = '&' := ((List.cons.inj hrest).1).symm
        subst hx
        obtain ⟨hpre, hent⟩ := escapeChar_amp c pre xs hblock
        refine ⟨escapeChar c, hent, ?_⟩
        subst hpre
        rw [hrest, List.nil_append] at *
        rw [hblock]
        exact List.prefix_append _ _

theorem mem_flatMap_data_infix (rows : List command) (row : command) (hrow : row ∈ rows) :
    (li_html row).data <:+: rows.flatMap (fun r => (li_html r).data) := by
  obtain ⟨l1, l2, hl⟩ := List.append_of_mem hrow
  subst hl
  refine ⟨l1.flatMap (fun r => (li_html r).data), l2.flatMap (fun r => (li_html r).data), ?_⟩
  simp [List.flatMap_append, List.flatMap_cons]

theorem HandleFunc_new (mux : List String) (pattern : String)
    (hpattern : pattern ≠ "") (hnew : pattern ∉ mux) :
    HandleFunc mux pattern = some (mux ++ [pattern]) := by
  unfold HandleFunc
  rw [if_neg (by simp [hpattern, hnew])]

theorem setup_handlers_index (cmd_handlers : List command) (app_config : config)
    (hidx : app_config.noIndex = false)
    (hnodup : (cmd_handlers.map command.path).Nodup)
    (hpath : ∀ row ∈ cmd_handlers,
      row.path ≠ "" ∧ row.path ≠ "/" ∧ (app_config.add_exit = true → row.path ≠ "/exit")) :
    ∃ handlers page,
      setup_handlers cmd_handlers app_config = some handlers
        ∧ handlers.index_html = some page
        ∧ page.data = INDEX_HEAD.data
            ++ cmd_handlers.flatMap (fun row => (li_html row).data)
            ++ (if app_config.add_exit = true then EXIT_ITEM.data else [])
            ++ INDEX_TAIL.data := by
  have hreg := register_commands_eq cmd_handlers [] "" hnodup
    (fun row hrow => ⟨(hpath row hrow).1, by simp⟩)
  have hroot : "/" ∉ cmd_handlers.map command.path := by
    intro hmem
    obtain ⟨row, hrow, heq⟩ := List.mem_map.mp hmem
    exact (hpath row hrow).2.1 heq
  unfold setup_handlers
  rw [hreg]
  cases hexit : app_config.add_exit with
  | false =>
    have h1 : HandleFunc ([] ++ cmd_handlers.map command.path) "/"
        = some ([] ++ cmd_handlers.map command.path ++ ["/"]) :=
      HandleFunc_new _ _ (by decide) (by simpa using hroot)
    simp only [Bool.false_eq_true, if_false, hidx, if_true, h1]
    refine ⟨_, _, rfl, rfl, ?_⟩
    rw [index_html_eq]
    simp only [List.nil_append, List.append_nil]
  | true =>
    have hex : "/exit" ∉ cmd_handlers.map command.path := by
      intro hmem
      obtain ⟨row, hrow, heq⟩ := List.mem_map.mp hmem
      exact (hpath row hrow).2.2 hexit heq
    have h0 : HandleFunc ([] ++ cmd_handlers.map command.path) "/exit"
        = some ([] ++ cmd_handlers.map command.path ++ ["/exit"]) :=
      HandleFunc_new _ _ (by decide) (by simpa using hex)
    have h1 : HandleFunc ([] ++ cmd_handlers.map command.path ++ ["/exit"]) "/"
        = some ([] ++ cmd_handlers.map command.path ++ ["/exit"] ++ ["/"]) :=
      HandleFunc_new _ _ (by decide) (by simpa using hroot)
    have hitem : (Sprintf LI_EXIT_FORMAT ["/exit", "/exit"]).data = EXIT_ITEM.data := by
      decide
    simp only [if_true, hidx, h0, h1]
    refine ⟨_, _, rfl, rfl, ?_⟩
    rw [index_html_eq]
    simp only [String.data_append, List.append_assoc, List.nil_append, hitem]

/-! ## Lemmas on the command lookup and the escaped rendering -/

theorem Getenv_mem (environ : List String) (key : String) (h : Getenv environ key ≠ "") :
    ∃ s ∈ environ, env_name s = key := by
  unfold Getenv at h
  cases hfind : environ.find? (fun s => s.data.contains '=' && decide (env_name s = key)) with
  | none => rw [hfind] at h; exact absurd rfl h
  | some s =>
    refine ⟨s, List.mem_of_find?_eq_some hfind, ?_⟩
    have := List.find?_some hfind
    simp only [Bool.and_eq_true, decide_eq_true_eq] at this
    exact this.2

theorem LookPath_PATH (isExecutable : String → String → Bool) (environ : List String)
    (file dir : String) (h : LookPath isExecutable environ file = some dir) :
    ∃ s ∈ environ, env_name s = "PATH" := by
  apply Getenv_mem
  intro hempty
  unfold LookPath at h
  rw [hempty] at h
  simp [SplitList] at h

theorem proxy_one_PATH (cmdEnv : List String) (env_raw : String)
    (h : env_name env_raw = "PATH") :
    proxy_one cmdEnv env_raw = cmdEnv ++ [env_raw] := by
  unfold proxy_one
  rw [SplitN_head, h]
  simp [env_var_names]

theorem mem_proxy_system_env_of_mem (environ cmdEnv : List String) (x : String)
    (hx : x ∈ cmdEnv) : x ∈ proxy_system_env cmdEnv environ := by
  obtain ⟨added, hadd, _⟩ := proxy_system_env_allowed environ cmdEnv
  rw [hadd]
  exact List.mem_append_left _ hx

theorem mem_proxy_system_env_PATH (environ cmdEnv : List String) (s : String)
    (hs : s ∈ environ) (hname : env_name s = "PATH") :
    s ∈ proxy_system_env cmdEnv environ := by
  induction environ generalizing cmdEnv with
  | nil => simp at hs
  | cons e es ih =>
    have hstep : proxy_system_env cmdEnv (e :: es) = proxy_system_env (proxy_one cmdEnv e) es := rfl
    rw [hstep]
    rcases List.mem_cons.mp hs with h | h
    · subst h
      apply mem_proxy_system_env_of_mem
      rw [proxy_one_PATH _ _ hname]
      simp
    · exact ih _ h

theorem escapeChar_eq_table (c : Char) :
    escapeChar c = (match entity_table.lookup c with
      | some entity => entity.data
      | none => [c]) := by
  unfold escapeChar
  split_ifs with h1 h2 h3 h4 h5
  · subst h1; rfl
  · subst h2; rfl
  · subst h3; rfl
  · subst h4; rfl
  · subst h5; rfl
  · have e1 : (c == '&') = false := by simpa using h1
    have e2 : (c == Char.ofNat 39) = false := by simpa using h2
    have e3 : (c == '<') = false := by simpa using h3
    have e4 : (c == '>') = false := by simpa using h4
    have e5 : (c == Char.ofNat 34) = false := by simpa using h5
    simp only [entity_table, List.lookup, e1, e2, e3, e4, e5]

theorem EscapeString_eq_html_escaped (s : String) :
    (EscapeString s).data = html_escaped s.data := by
  unfold EscapeString html_escaped
  simp only
  congr 1
  funext c
  exact escapeChar_eq_table c

theorem html_unescape_aux_escapeChar (c : Char) (rest : List Char) :
    html_unescape_aux 0 (escapeChar c ++ rest) = c :: html_unescape_aux 0 rest := by
  unfold escapeChar
  split_ifs with h1 h2 h3 h4 h5
  · subst h1
    simp [html_unescape_aux, entity_table, List.isPrefixOf]
  · subst h2
    simp [html_unescape_aux, entity_table, List.isPrefixOf]
  · subst h3
    simp [html_unescape_aux, entity_table, List.isPrefixOf]
  · subst h4
    simp [html_unescape_aux, entity_table, List.isPrefixOf]
  · subst h5
    simp [html_unescape_aux, entity_table, List.isPrefixOf]
  · have e1 : ('&' == c) = false := by simpa using Ne.symm h1
    simp [html_unescape_aux, entity_table, List.isPrefixOf, e1]

theorem html_unescape_escaped (text : List Char) :
    html_unescape (html_escaped text) = text := by
  have h : html_escaped text = text.flatMap escapeChar := by
    unfold html_escaped
    congr 1
    funext c
    exact (escapeChar_eq_table c).symm
  have hall : ∀ l : List Char, html_unescape_aux 0 (l.flatMap escapeChar) = l := by
    intro l
    induction l with
    | nil => rfl
    | cons c cs ih =>
      rw [List.flatMap_cons, html_unescape_aux_escapeChar, ih]
  rw [h]
  exact hall text

/-! ## The claims -/

/-- C1: with form and CGI modes off, for every server environment and every
file system, whenever the handler starts the command, the environment the
command receives is `cmd.Env` as built by `proxy_system_env` (it is not nil,
`sh` having been found through an entry `PATH=...` that the allow-list
passes), every variable in it comes from the server environment under a name
in PATH, HOME, LANG, USER, TMPDIR, and the handler's response is the one for
the command run in exactly that environment; in a server environment without
a variable `PATH`, none of the five names included, `sh` is not found and no
command is started. -/
theorem C1_spawned_env_allow_listed (isExecutable : String → String → Bool)
    (unicodeUpper : Char → Char) (app_config : config) (environ : List String)
    (req : Request)
    (hform : app_config.set_form = false) (hcgi : app_config.set_cgi = false) :
    (∀ env, shell_handler_spawn_env isExecutable unicodeUpper app_config environ req
          = some env →
        env = proxy_system_env [] environ
          ∧ (∀ entry ∈ env, entry ∈ environ ∧ env_name entry ∈ env_var_names)
          ∧ ∀ cmd spawn rw,
              shell_handler unicodeUpper app_config cmd environ
                  (os_exec isExecutable environ spawn) rw req
                = shell_handler unicodeUpper app_config cmd environ
                    (fun _ _ => spawn cmd env) rw req)
      ∧ ((∀ entry ∈ environ, env_name entry ≠ "PATH") →
          shell_handler_spawn_env isExecutable unicodeUpper app_config environ req = none
            ∧ ∀ cmd spawn rw,
                shell_handler unicodeUpper app_config cmd environ
                    (os_exec isExecutable environ spawn) rw req
                  = shell_handler unicodeUpper app_config cmd environ
                      (fun _ _ => lookPathError) rw req) := by
  have henv : shell_handler_env unicodeUpper app_config environ req
      = some (proxy_system_env [] environ) := by
    simp [shell_handler_env, hform, hcgi]
  constructor
  · intro env hspawn
    unfold shell_handler_spawn_env at hspawn
    rw [henv] at hspawn
    cases hlook : LookPath isExecutable environ "sh" with
    | none => rw [hlook] at hspawn; exact absurd hspawn (by simp)
    | some dir =>
      rw [hlook] at hspawn
      simp only at hspawn
      obtain ⟨s, hs, hname⟩ := LookPath_PATH isExecutable environ "sh" dir hlook
      have hmem := mem_proxy_system_env_PATH environ [] s hs hname
      have heff : effective_env (proxy_system_env [] environ) environ
          = proxy_system_env [] environ := by
        unfold effective_env
        cases hp : proxy_system_env [] environ with
        | nil => rw [hp] at hmem; simp at hmem
        | cons a l => rfl
      rw [heff] at hspawn
      have henveq : env = proxy_system_env [] environ := (Option.some.inj hspawn).symm
      refine ⟨henveq, ?_, ?_⟩
      · obtain ⟨added, hadd, hall⟩ := proxy_system_env_allowed environ []
        rw [henveq, hadd]
        simpa using hall
      · intro cmd spawn rw
        unfold shell_handler
        rw [henv]
        simp only [os_exec, hlook, heff, henveq]
  · intro hnone
    have hlook : LookPath isExecutable environ "sh" = none := by
      cases hl : LookPath isExecutable environ "sh" with
      | none => rfl
      | some dir =>
        obtain ⟨s, hs, hname⟩ := LookPath_PATH isExecutable environ "sh" dir hl
        exact absurd hname (hnone s hs)
    refine ⟨?_, ?_⟩
    · unfold shell_handler_spawn_env
      rw [henv, hlook]
    · intro cmd spawn rw
      unfold shell_handler
      rw [henv]
      simp only [os_exec, hlook]

/-- C1 at a server environment with a secret: the command is started with
`PATH` and `HOME` only; and in the environment holding the secret alone no
command is started. -/
theorem C1_spawned_env_witness :
    plainConfig.set_form = false ∧ plainConfig.set_cgi = false
      ∧ shell_handler_spawn_env binSh id plainConfig
          ["SECRET=x", "PATH=/usr/bin:/bin", "HOME=/root"] sampleRequest
        = some ["PATH=/usr/bin:/bin", "HOME=/root"]
      ∧ (∀ entry ∈ ["PATH=/usr/bin:/bin", "HOME=/root"],
          entry ∈ ["SECRET=x", "PATH=/usr/bin:/bin", "HOME=/root"]
            ∧ env_name entry ∈ env_var_names)
      ∧ shell_handler_spawn_env binSh id plainConfig ["SECRET=x"] sampleRequest = none :=
  ⟨rfl, rfl, by decide,
    ((C1_spawned_env_allow_listed binSh id plainConfig
      ["SECRET=x", "PATH=/usr/bin:/bin", "HOME=/root"] sampleRequest rfl rfl).1
      ["PATH=/usr/bin:/bin", "HOME=/root"] (by decide)).2.1,
    by decide⟩

/-- C2: for every successfully parsed form, `get_form` appends to `cmd.Env`
exactly one entry per key, in the order the keys are visited, equal to
`"v_" ++ key ++ "=" ++` the values joined with `","`, and nothing else. -/
theorem C2_get_form_one_entry_per_key (cmdEnv : List String) (req : Request)
    (form : List (String × List String)) (hform : req.Form = Except.ok form) :
    get_form cmdEnv req
      = cmdEnv ++ form.map (fun kv => "v_" ++ kv.1 ++ "=" ++ ",".intercalate kv.2) := by
  rw [get_form_eq cmdEnv req form hform]
  rfl

/-- C2 at the query `a=1&a=2&b=x`: the entries are `v_a=1,2` and `v_b=x`. -/
theorem C2_get_form_witness :
    sampleRequest.Form = Except.ok [("a", ["1", "2"]), ("b", ["x"])]
      ∧ get_form [] sampleRequest
          = [] ++ [("a", ["1", "2"]), ("b", ["x"])].map
              (fun kv => "v_" ++ kv.1 ++ "=" ++ ",".intercalate kv.2)
      ∧ get_form [] sampleRequest = ["v_a=1,2", "v_b=x"] :=
  ⟨rfl, C2_get_form_one_entry_per_key [] sampleRequest _ rfl, by decide⟩

/-- C3: when every header has at least one value, the `HTTP_*` loop of
`set_cgi_env` appends exactly one entry per header, equal to
`"HTTP_" ++ NAME ++ "=" ++` the first value, where `NAME` is the header name
with every `-` replaced by `_` and then upper-cased; and whenever the remote
address splits into at least two pieces, `set_cgi_env` returns these entries
followed by the rows of `CGI_vars` only. -/
theorem C3_one_http_entry_per_header (unicodeUpper : Char → Char) (cmdEnv : List String)
    (req : Request) (app_config : config) (hval : ∀ h ∈ req.Header, h.2 ≠ []) :
    cgi_http_vars unicodeUpper req.Header cmdEnv
        = some (cmdEnv ++ req.Header.map (fun h =>
            "HTTP_" ++ ToUpper unicodeUpper (dashToUnderscore h.1) ++ "=" ++ h.2.headD ""))
      ∧ ∀ addr0 addr1 rest, Split req.RemoteAddr ':' = addr0 :: addr1 :: rest →
          set_cgi_env unicodeUpper cmdEnv req app_config
            = some (cmdEnv ++ req.Header.map (fun h =>
                "HTTP_" ++ ToUpper unicodeUpper (dashToUnderscore h.1) ++ "=" ++ h.2.headD "")
              ++ (CGI_vars req app_config addr0 addr1).map cgi_entry) :=
  ⟨cgi_http_vars_eq unicodeUpper req.Header cmdEnv hval,
    fun addr0 addr1 rest hsplit =>
      set_cgi_env_eq unicodeUpper cmdEnv req app_config hval addr0 addr1 rest hsplit⟩

/-- C3 at the header `X-Foo: bar` (with a second value `baz`): the entry is
`HTTP_X_FOO=bar`. -/
theorem C3_http_entry_witness :
    (∀ h ∈ sampleRequest.Header, h.2 ≠ [])
      ∧ cgi_http_vars id sampleRequest.Header [] = some ["HTTP_X_FOO=bar"] := by
  have hval : ∀ h ∈ sampleRequest.Header, h.2 ≠ [] := by decide
  refine ⟨hval, ?_⟩
  rw [(C3_one_http_entry_per_header id [] sampleRequest plainConfig hval).1]
  decide

/-- C4, at the failing inputs: for the remote addresses `127.0.0.1` and the
empty string, `strings.Split` yields one piece, `remote_addr[1]` is out of
range and `set_cgi_env` panics instead of returning the environment. -/
theorem C4_remote_addr_without_port_panics :
    Split "127.0.0.1" ':' = ["127.0.0.1"]
      ∧ set_cgi_env id [] { sampleRequest with RemoteAddr := "127.0.0.1" } formCgiConfig = none
      ∧ Split "" ':' = [""]
      ∧ set_cgi_env id [] { sampleRequest with RemoteAddr := "" } formCgiConfig = none := by
  decide

/-- C5, at the failing input: for the arguments `""` and `date` the length
checks pass and `path[0]` on the empty path is out of range, so `get_config`
panics instead of returning an error. -/
theorem C5_empty_path_panics (app_config : config) :
    get_config ["", "date"] app_config = Outcome.panic ∧
    get_config ["/a", "date", "", "ps"] app_config = Outcome.panic := by
  constructor <;> rfl

/-- C6, refuted as stated: with both modes on, the form-derived entry `v_a=1,2`
of the sample request is at index 1 and the CGI entry `HTTP_X_FOO=bar` at
index 3, so it is not the case that every form-derived entry appears later
than every CGI entry. -/
theorem C6_form_before_cgi_counterexample :
    ∃ env, shell_handler_env id formCgiConfig ["PATH=/bin"] sampleRequest = some env
      ∧ ¬ ∀ i j : Nat,
          (∃ f ∈ [("a", ["1", "2"]), ("b", ["x"])], env[i]? = some (form_entry f)) →
          (∃ h ∈ sampleRequest.Header, env[j]? = some (http_entry id h)) →
          j < i := by
  refine ⟨["PATH=/bin", "v_a=1,2", "v_b=x", "HTTP_X_FOO=bar", "PATH_INFO=/x",
    "QUERY_STRING=a=1&a=2&b=x", "REMOTE_ADDR=127.0.0.1", "REMOTE_PORT=5000",
    "REQUEST_METHOD=GET", "REQUEST_URI=/x?a=1&a=2&b=x", "SCRIPT_NAME=/x", "SERVER_NAME=",
    "SERVER_PORT=8080", "SERVER_PROTOCOL=HTTP/1.1", "SERVER_SOFTWARE=shell2http"], by decide, ?_⟩
  intro hall
  have h := hall 1 3 ⟨("a", ["1", "2"]), by decide, by decide⟩
    ⟨("X-Foo", ["bar", "baz"]), by decide, by decide⟩
  omega

/-- C6, amended: with both modes on, CGI variables are applied after form
variables: the list the handler builds is the passthrough entries, then the
form-derived entries, then the `HTTP_*` entries and the rows of `CGI_vars`. -/
theorem C6_cgi_after_form (unicodeUpper : Char → Char) (app_config : config)
    (environ : List String) (req : Request)
    (hform : app_config.set_form = true) (hcgi : app_config.set_cgi = true)
    (hval : ∀ h ∈ req.Header, h.2 ≠ [])
    (addr0 addr1 : String) (rest : List String)
    (hsplit : Split req.RemoteAddr ':' = addr0 :: addr1 :: rest) :
    shell_handler_env unicodeUpper app_config environ req
      = some (proxy_system_env [] environ ++ form_entries req
          ++ (req.Header.map (http_entry unicodeUpper)
            ++ (CGI_vars req app_config addr0 addr1).map cgi_entry)) := by
  unfold shell_handler_env
  simp only [hform, hcgi, if_true]
  rw [set_cgi_env_eq unicodeUpper _ req app_config hval addr0 addr1 rest hsplit,
    get_form_eq_entries]
  simp

/-- C6 amended, at the sample request. -/
theorem C6_cgi_after_form_witness :
    shell_handler_env id formCgiConfig ["PATH=/bin", "SECRET=x"] sampleRequest
      = some (proxy_system_env [] ["PATH=/bin", "SECRET=x"] ++ form_entries sampleRequest
          ++ (sampleRequest.Header.map (http_entry id)
            ++ (CGI_vars sampleRequest formCgiConfig "127.0.0.1" "5000").map cgi_entry)) :=
  C6_cgi_after_form id formCgiConfig ["PATH=/bin", "SECRET=x"] sampleRequest rfl rfl
    (by decide) "127.0.0.1" "5000" [] (by decide)

/-- C7: for every list of routes that registers (distinct non-empty paths,
none of them `/`, nor `/exit` when the exit command is added), with the index
enabled `setup_handlers` builds exactly this page: the head of the template,
then for each route in order the list item whose last field is the escaped
rendering of the command (each of `&`, `'`, `<`, `>`, `"` replaced by its
entity, every other character kept), then the item of `/exit` if any, then the
tail of the template.  So the page contains the rendering of every command; a
command enters the page through its rendering only; the rendering displays
back as the command, contains no `<` and no `>`, and every `&` in it begins
one of the five entities. -/
theorem C7_index_page_escapes_commands (cmd_handlers : List command) (app_config : config)
    (hidx : app_config.noIndex = false)
    (hnodup : (cmd_handlers.map command.path).Nodup)
    (hpath : ∀ row ∈ cmd_handlers,
      row.path ≠ "" ∧ row.path ≠ "/" ∧ (app_config.add_exit = true → row.path ≠ "/exit")) :
    ∃ handlers page,
      setup_handlers cmd_handlers app_config = some handlers
        ∧ handlers.index_html = some page
        ∧ page.data = INDEX_HEAD.data
            ++ cmd_handlers.flatMap (fun row =>
                "<li><a href=\"".data ++ row.path.data ++ "\">".data ++ row.path.data
                  ++ "</a> <span style=\"color: #888\">- ".data
                  ++ html_escaped row.cmd.data ++ "<span></li>".data)
            ++ (if app_config.add_exit = true then EXIT_ITEM.data else [])
            ++ INDEX_TAIL.data
        ∧ ∀ row ∈ cmd_handlers,
            (EscapeString row.cmd).data = html_escaped row.cmd.data
            ∧ html_escaped row.cmd.data <:+: page.data
            ∧ html_unescape (html_escaped row.cmd.data) = row.cmd.data
            ∧ '<' ∉ html_escaped row.cmd.data
            ∧ '>' ∉ html_escaped row.cmd.data
            ∧ ∀ pre post, html_escaped row.cmd.data = pre ++ '&' :: post →
                ∃ ent ∈ entities, ent <+: '&' :: post := by
  obtain ⟨handlers, page, hset, hpage, hdata⟩ :=
    setup_handlers_index cmd_handlers app_config hidx hnodup hpath
  have hitems : cmd_handlers.flatMap (fun row => (li_html row).data)
      = cmd_handlers.flatMap (fun row =>
          "<li><a href=\"".data ++ row.path.data ++ "\">".data ++ row.path.data
            ++ "</a> <span style=\"color: #888\">- ".data
            ++ html_escaped row.cmd.data ++ "<span></li>".data) := by
    congr 1
    funext row
    rw [li_html_eq, EscapeString_eq_html_escaped]
  refine ⟨handlers, page, hset, hpage, by rw [hdata, hitems], ?_⟩
  intro row hrow
  have hesc := EscapeString_eq_html_escaped row.cmd
  have hli : (li_html row).data <:+: page.data := by
    obtain ⟨l1, l2, hl⟩ := mem_flatMap_data_infix cmd_handlers row hrow
    refine ⟨INDEX_HEAD.data ++ l1,
      l2 ++ ((if app_config.add_exit = true then EXIT_ITEM.data else []) ++ INDEX_TAIL.data), ?_⟩
    rw [hdata, ← hl]
    simp only [List.append_assoc]
  have hin : (EscapeString row.cmd).data <:+: (li_html row).data := by
    rw [li_html_eq]
    exact ⟨_, _, rfl⟩
  refine ⟨hesc, hesc ▸ List.IsInfix.trans hin hli, html_unescape_escaped row.cmd.data,
    ?_, ?_, ?_⟩
  · rw [← hesc]
    intro hmem
    obtain ⟨c, _, hc⟩ := List.mem_flatMap.mp hmem
    exact escapeChar_no_lt c hc
  · rw [← hesc]
    intro hmem
    obtain ⟨c, _, hc⟩ := List.mem_flatMap.mp hmem
    exact escapeChar_no_gt c hc
  · intro pre post hsplit
    rw [← hesc] at hsplit
    exact escape_amp_begins_entity row.cmd.data pre post hsplit

/-- C7 at two routes, the first command holding every character of the
table: the rendering of `echo '<b>' && echo "R&D"` is
`echo &#39;&lt;b&gt;&#39; &amp;&amp; echo &#34;R&amp;D&#34;`, and the page
is the one the theorem gives. -/
theorem C7_index_page_witness :
    html_escaped "echo '<b>' && echo \"R&D\"".data
        = "echo &#39;&lt;b&gt;&#39; &amp;&amp; echo &#34;R&amp;D&#34;".data
      ∧ ∃ handlers page,
        setup_handlers sampleRoutes plainConfig = some handlers
          ∧ handlers.index_html = some page
          ∧ page.data = INDEX_HEAD.data
              ++ sampleRoutes.flatMap (fun row =>
                  "<li><a href=\"".data ++ row.path.data ++ "\">".data ++ row.path.data
                    ++ "</a> <span style=\"color: #888\">- ".data
                    ++ html_escaped row.cmd.data ++ "<span></li>".data)
              ++ (if plainConfig.add_exit = true then EXIT_ITEM.data else [])
              ++ INDEX_TAIL.data
          ∧ ∀ row ∈ sampleRoutes,
              (EscapeString row.cmd).data = html_escaped row.cmd.data
              ∧ html_escaped row.cmd.data <:+: page.data
              ∧ html_unescape (html_escaped row.cmd.data) = row.cmd.data
              ∧ '<' ∉ html_escaped row.cmd.data
              ∧ '>' ∉ html_escaped row.cmd.data
              ∧ ∀ pre post, html_escaped row.cmd.data = pre ++ '&' :: post →
                  ∃ ent ∈ entities, ent <+: '&' :: post :=
  ⟨by decide,
    C7_index_page_escapes_commands sampleRoutes plainConfig rfl (by decide) (by decide)⟩

set_option maxRecDepth 20000 in
/-- C8, at the failing input: for the route with path `/"><b>` the list item
of the index page carries the path as it is, both as link target and as link
text, so the raw `"`, `<` and `>` of the path reach the page; only the command
is escaped. -/
theorem C8_path_is_not_escaped :
    li_html { path := "/\"><b>", cmd := "echo <b>" }
        = "<li><a href=\"/\"><b>\">/\"><b></a> <span style=\"color: #888\">- echo &lt;b&gt;<span></li>"
      ∧ setup_handlers [{ path := "/\"><b>", cmd := "echo <b>" }] plainConfig
        = some { patterns := ["/\"><b>", "/"],
                 index_html := some (INDEX_HEAD
                   ++ "<li><a href=\"/\"><b>\">/\"><b></a> <span style=\"color: #888\">- echo &lt;b&gt;<span></li>"
                   ++ INDEX_TAIL) } := by
  constructor
  · decide
  · decide

/-- C9: whenever the handler gets as far as running the command, the response
body is exactly the captured standard output when there is no error, and
exactly `exec error: ` followed by the error's description, with none of the
captured output, when there is one; the handler never sets a status code, so
the default 200 is sent. -/
theorem C9_response_body (unicodeUpper : Char → Char) (app_config : config) (cmd : String)
    (environ : List String) (run : String → List String → ExecResult) (req : Request)
    (cmdEnv : List String)
    (henv : shell_handler_env unicodeUpper app_config environ req = some cmdEnv) :
    ∃ rw, shell_handler unicodeUpper app_config cmd environ run
          { status := none, body := "" } req = some rw
      ∧ rw.status = none ∧ rw.sentStatus = 200
      ∧ ((run cmd (effective_env cmdEnv environ)).err = none →
          rw.body = (run cmd (effective_env cmdEnv environ)).shell_out)
      ∧ ∀ description, (run cmd (effective_env cmdEnv environ)).err = some description →
          rw.body = "exec error: " ++ description := by
  unfold shell_handler
  rw [henv]
  cases herr : (run cmd (effective_env cmdEnv environ)).err with
  | none =>
    refine ⟨Fprint { status := none, body := "" }
      [Operand.str (run cmd (effective_env cmdEnv environ)).shell_out], ?_, rfl, rfl, ?_, ?_⟩
    · simp only [herr]
    · intro _
      simp [Fprint, Sprint, doPrint, Operand.text]
    · intro d hd
      exact absurd hd (by simp)
  | some e =>
    refine ⟨Fprint { status := none, body := "" }
      [Operand.str "exec error: ", Operand.err e], ?_, rfl, rfl, ?_, ?_⟩
    · simp only [herr]
    · intro hd
      exact absurd hd (by simp)
    · intro d hd
      have hde : e = d := by simpa using hd
      subst hde
      simp [Fprint, Sprint, doPrint, Operand.text, Operand.isString]

/-- C9 at a failing command: the body is the error text and not the captured
output. -/
theorem C9_response_body_witness :
    shell_handler_env id plainConfig ["PATH=/bin"] sampleRequest = some ["PATH=/bin"]
      ∧ ∃ rw, shell_handler id plainConfig "false" ["PATH=/bin"] failingRun
            { status := none, body := "" } sampleRequest = some rw
        ∧ rw.status = none ∧ rw.sentStatus = 200
        ∧ ((failingRun "false" (effective_env ["PATH=/bin"] ["PATH=/bin"])).err = none →
            rw.body = (failingRun "false" (effective_env ["PATH=/bin"] ["PATH=/bin"])).shell_out)
        ∧ ∀ description,
            (failingRun "false" (effective_env ["PATH=/bin"] ["PATH=/bin"])).err
                = some description →
            rw.body = "exec error: " ++ description :=
  ⟨by decide,
    C9_response_body id plainConfig "false" ["PATH=/bin"] failingRun sampleRequest
      ["PATH=/bin"] (by decide)⟩

/-- C10, at the failing input: for the remote address `[::1]:8080`, that is
host `[::1]` and port `8080`, `strings.Split` cuts at every `:` and
`set_cgi_env` sets `REMOTE_ADDR=[` and `REMOTE_PORT=` (empty) instead of
`REMOTE_ADDR=[::1]` and `REMOTE_PORT=8080`. -/
theorem C10_ipv6_remote_addr_cut_at_first_colons :
    Split "[::1]:8080" ':' = ["[", "", "1]", "8080"]
      ∧ set_cgi_env id [] { sampleRequest with RemoteAddr := "[::1]:8080" } formCgiConfig
        = some ["HTTP_X_FOO=bar", "PATH_INFO=/x", "QUERY_STRING=a=1&a=2&b=x",
            "REMOTE_ADDR=[", "REMOTE_PORT=", "REQUEST_METHOD=GET",
            "REQUEST_URI=/x?a=1&a=2&b=x", "SCRIPT_NAME=/x", "SERVER_NAME=",
            "SERVER_PORT=8080", "SERVER_PROTOCOL=HTTP/1.1", "SERVER_SOFTWARE=shell2http"] := by
  decide

end Shell2Http
